import Mathlib

/-!
Verification of the ngxtop_rtmp_hls log-analysis tool.

This file gives a shallow embedding of the parts of the repository that the
claims under scrutiny are about:

* `config_parser.py` — the log-format-to-regex compiler (`build_pattern`,
  `extract_variables`, the built-in format vocabulary);
* `utils.py` — the numeric coercion helpers `to_int` / `to_float`;
* `sql_processor.py` — `SQLProcessor.process` / `SQLProcessor.report`;
* `httptop.py` — the record enrichment pipeline (`map_field`, `add_field`,
  `parse_status_type`, `parse_request_path`, `parse_log`) and the filter
  stage of `process_log`;
* `dict_processor.py` — `ClientInfo.parse_info`, `StreamInfo.parse_info`
  and the numeric parts of `DictProcessor.report`.

Strings are modelled as `List Char`; Python numbers as `Int` / `Rat`;
raised exceptions as `Except Unit` or an explicit `Bool` "raised" flag when
partially-mutated state matters.  The regular expressions produced by
`build_pattern` fall into a fixed restricted shape (alternation of literal
text and greedy named `.*` groups); `matchSegs` below implements exactly
Python's leftmost/greedy backtracking prefix-match semantics for that shape.
-/

/-- Python strings, modelled as lists of characters. -/
abbrev Str := List Char

/-- A Python value as it occurs in the record dictionaries of this program:
a string, an int, a float (modelled as a rational) or `None`. -/
inductive Val where
  | vStr (s : Str)
  | vInt (n : Int)
  | vRat (q : Rat)
  | vNone
deriving DecidableEq, Repr

/-- Python truthiness for the values above: `None`, `''`, `0` and `0.0`
are falsy, everything else truthy. -/
def pyTruthy : Val → Bool
  | .vStr s => !s.isEmpty
  | .vInt n => n != 0
  | .vRat q => q != 0
  | .vNone => false

/-- Truncation toward zero, as Python's `int(float)` and `%d` formatting of
a float do.  Lean's `Int` division already truncates toward zero. -/
def pyTrunc (q : Rat) : Int := q.num / (q.den : Int)

/-- Digits-to-nat accumulator for `int(...)` parsing. -/
def digitsToNat : List Char → Nat → Option Nat
  | [], acc => some acc
  | c :: cs, acc =>
      if c.isDigit then digitsToNat cs (acc * 10 + (c.toNat - '0'.toNat))
      else none

/-- Python `int(string)` restricted to the forms occurring in this program:
an optional single sign followed by one or more decimal digits.  Returns
`none` where Python raises `ValueError`. -/
def pyIntOfStr : Str → Option Int
  | [] => none
  | '-' :: cs => if cs.isEmpty then none else (digitsToNat cs 0).map (fun n => -(n : Int))
  | '+' :: cs => if cs.isEmpty then none else (digitsToNat cs 0).map (fun n => (n : Int))
  | cs => (digitsToNat cs 0).map (fun n => (n : Int))

/-- The helper `utils.to_int`:
`int(value) if value and value != '-' else 0`.
`Except.error ()` is Python's `ValueError` escaping from `int(...)`. -/
def toInt (v : Val) : Except Unit Int :=
  if !pyTruthy v || v = .vStr ['-'] then .ok 0
  else
    match v with
    | .vStr s => match pyIntOfStr s with
      | some n => .ok n
      | none => .error ()
    | .vInt n => .ok n
    | .vRat q => .ok (pyTrunc q)
    | .vNone => .error ()

/-- Fractional digits of `float(...)` parsing, as a rational. -/
def fracToRat : List Char → Rat → Rat → Option Rat
  | [], acc, _ => some acc
  | c :: cs, acc, scale =>
      if c.isDigit then
        fracToRat cs (acc + (((c.toNat - '0'.toNat) : Int) : Rat) * scale / 10) (scale / 10)
      else none

/-- Python `float(string)` restricted to the decimal forms occurring in this
program: optional sign, digits, optional point and fractional digits. -/
def pyFloatOfStr (s : Str) : Option Rat :=
  let core : Str → Option Rat := fun cs =>
    match cs.span (·.isDigit) with
    | (intPart, rest) =>
      match rest with
      | [] => if intPart.isEmpty then none else
          (digitsToNat intPart 0).map (fun n => (n : Rat))
      | '.' :: frac =>
          if intPart.isEmpty && frac.isEmpty then none
          else match digitsToNat intPart 0 with
            | none => none
            | some n => (fracToRat frac 0 (1/10)).map (fun f => (n : Rat) + f)
      | _ => none
  match s with
  | '-' :: cs => (core cs).map (fun q => -q)
  | '+' :: cs => core cs
  | cs => core cs

/-- The helper `utils.to_float`:
`float(value) if value and value != '-' else 0.0`. -/
def toFloat (v : Val) : Except Unit Rat :=
  if !pyTruthy v || v = .vStr ['-'] then .ok 0
  else
    match v with
    | .vStr s => match pyFloatOfStr s with
      | some q => .ok q
      | none => .error ()
    | .vInt n => .ok (n : Rat)
    | .vRat q => .ok q
    | .vNone => .error ()

/-! ## Records (Python dicts with string keys) -/

/-- A Python dict as used for parsed log records: an association list from
field name to value.  Keys are unique in all records this program builds
(regex group names are unique within a pattern). -/
abbrev Record := List (Str × Val)

/-- Dict lookup: `record[key]` as an `Option`. -/
def recGet (r : Record) (k : Str) : Option Val :=
  (r.find? (fun p => p.1 = k)).map Prod.snd

/-- Python `record.get(key, None)`. -/
def recGetD (r : Record) (k : Str) : Val := (recGet r k).getD .vNone

/-- Membership test `key in record`. -/
def recHas (r : Record) (k : Str) : Bool := (recGet r k).isSome

/-- Dict update `record[key] = value`: replaces in place, appends if new. -/
def recSet (r : Record) (k : Str) (v : Val) : Record :=
  match r with
  | [] => [(k, v)]
  | (k0, v0) :: rest =>
      if k0 = k then (k0, v) :: rest else (k0, v0) :: recSet rest k v

/-! ## config_parser.py — the pattern compiler

`build_pattern` textually rewrites the format string in two passes:

    pattern = re.sub(r'([\.\*\+\?\|\(\)\x7b\x7d\[\]])', r'\\\1', log_format)
    pattern = re.sub(r'\$([a-zA-Z0-9\_]+)', '(?P<\\1>.*)', pattern)
    return re.compile(pattern)

The first pass escapes the listed specials (turning them into literal
characters of the regex); the second replaces every `$name` token — a `$`
followed by a maximal nonempty run of `[a-zA-Z0-9_]` — by a greedy named
group `(?P<name>.*)`.  We embed the result of the two passes as a segment
list: each `$name` token becomes a `var` segment and every other character
a one-character `lit` segment.  This is exact whenever the non-placeholder
characters are interpreted literally by `re`, i.e. whenever they avoid the
metacharacters the first pass does not escape (`^`, `$`, `\`); theorems
about general format strings carry that restriction as a hypothesis. -/

/-- One segment of a compiled pattern: a literal run or a named greedy
`.*` capture group. -/
inductive Seg where
  | lit (s : Str)
  | var (n : Str)
deriving DecidableEq, Repr

/-- Characters allowed in a `$name` placeholder: `[a-zA-Z0-9_]`. -/
def isNameChar (c : Char) : Bool := c.isAlphanum || c = '_'

/-- Fuelled scanner for the `$name` token structure of a format string
(fuel is the input length; each step consumes at least one character). -/
def scanFormat : Nat → Str → List Seg
  | 0, _ => []
  | _ + 1, [] => []
  | fuel + 1, '$' :: rest =>
      let name := rest.takeWhile isNameChar
      if name.isEmpty then .lit ['$'] :: scanFormat fuel rest
      else .var name :: scanFormat fuel (rest.dropWhile isNameChar)
  | fuel + 1, c :: rest => .lit [c] :: scanFormat fuel rest

/-- The segment structure of a format string, per the two `re.sub` passes
of `build_pattern`. -/
def parseFormat (s : Str) : List Seg := scanFormat s.length s

/-- Length of the newline-free prefix of the input: Python's `.` does not
match a newline, so a greedy `.*` can capture at most this much. -/
def nlFreeLen (cs : Str) : Nat := (cs.takeWhile (· != '\n')).length

/-- Greedy capture search for one `.*` group: try capture length `i`,
then `i - 1`, … down to `0`, continuing with `k` on the rest; the first
continuation that succeeds wins.  This is Python's backtracking order for
a greedy unanchored-tail group. -/
def greedy (k : Str → Option (List (Str × Str))) (n : Str) :
    Nat → Str → Option (List (Str × Str))
  | 0, cs =>
      match k cs with
      | some bs => some ((n, []) :: bs)
      | none => none
  | i + 1, cs =>
      match k (cs.drop (i + 1)) with
      | some bs => some ((n, cs.take (i + 1)) :: bs)
      | none => greedy k n i cs

/-- Matching a compiled pattern against a line, with Python `re.match`
semantics for this restricted pattern shape: anchored at the start, a
prefix match (trailing input is allowed), literals match themselves, and
each named group is a greedy backtracking `.*`.  Returns the list of
(group name, captured text) bindings — a successful `m.groupdict()`. -/
def matchSegs : List Seg → Str → Option (List (Str × Str))
  | [] => fun _ => some []
  | .lit s :: rest => fun cs =>
      if s.isPrefixOf cs then matchSegs rest (cs.drop s.length) else none
  | .var n :: rest => fun cs => greedy (matchSegs rest) n (nlFreeLen cs) cs

/-- The built-in format `combined` (`LOG_FORMAT_COMBINED`). -/
def LOG_FORMAT_COMBINED : Str :=
  ("$remote_addr - $remote_user [$time_local] " ++
   "\"$request\" $status $body_bytes_sent " ++
   "\"$http_referer\" \"$http_user_agent\"").data

/-- The built-in format `common` (`LOG_FORMAT_COMMON`). -/
def LOG_FORMAT_COMMON : Str :=
  ("$remote_addr - $remote_user [$time_local] " ++
   "\"$request\" $status $body_bytes_sent " ++
   "\"$http_x_forwarded_for\"").data

/-- The built-in format `hls_out` (`LOG_FORMAT_HLS_OUT`). -/
def LOG_FORMAT_HLS_OUT : Str :=
  ("$remote_addr - $remote_user [$time_local] " ++
   "\"$request\" $status $body_bytes_sent " ++
   "\"$http_referer\" \"$http_user_agent\"").data

/-- The built-in format `hls_in` (`LOG_FORMAT_HLS_IN`): the empty string
in the source (`LOG_FORMAT_HLS_IN = ''`). -/
def LOG_FORMAT_HLS_IN : Str := []

/-- The named-preset expansion at the head of `build_pattern`. -/
def expandFormat (logFormat : Str) : Str :=
  if logFormat = "combined".data then LOG_FORMAT_COMBINED
  else if logFormat = "common".data then LOG_FORMAT_COMMON
  else if logFormat = "hls_out".data then LOG_FORMAT_HLS_OUT
  else if logFormat = "hls_in".data then LOG_FORMAT_HLS_IN
  else logFormat

/-- `config_parser.build_pattern`: expand a named preset, then compile the
format string into the segment pattern. -/
def buildPattern (logFormat : Str) : List Seg := parseFormat (expandFormat logFormat)

/-- Placeholder names of a compiled pattern, in order, duplicates kept. -/
def varNames (segs : List Seg) : List Str :=
  segs.filterMap (fun s => match s with | .var n => some n | .lit _ => none)

/-- `config_parser.extract_variables`: expands only the `combined` preset,
then scans the (possibly unexpanded) string with
`re.findall(r'\$([a-zA-Z0-9\_]+)', ...)` — the same tokenization as
`parseFormat`. -/
def extractVariables (logFormat : Str) : List Str :=
  varNames (parseFormat
    (if logFormat = "combined".data then LOG_FORMAT_COMBINED else logFormat))

/-! ## Field-name constants -/

def kStatus : Str := "status".data
def kStatusType : Str := "status_type".data
def kBytesSent : Str := "bytes_sent".data
def kBodyBytesSent : Str := "body_bytes_sent".data
def kRequestTime : Str := "request_time".data
def kRequestUri : Str := "request_uri".data
def kRequest : Str := "request".data
def kRequestPath : Str := "request_path".data
def kRemoteAddr : Str := "remote_addr".data
def kTime : Str := "time".data
def kTimeLocal : Str := "time_local".data
def kHttpUserAgent : Str := "http_user_agent".data
def kInBytes : Str := "in_bytes".data
def kInBw : Str := "in_bw".data
def kOutBytes : Str := "out_bytes".data
def kOutBw : Str := "out_bw".data

/-! ## sql_processor.py — SQLProcessor

State: `begin` starts as `False` and is overwritten with `time.time()` on
every `process` call; the in-memory table only ever grows, and `count()`
returns its row count.  Timestamps are rationals. -/

/-- The mutable state of a `SQLProcessor`: `begin` (`none` models the
initial `False`) and the number of rows inserted into the `log` table. -/
structure SQLState where
  begin : Option Rat
  rows : Nat
deriving DecidableEq, Repr

/-- A fresh `SQLProcessor`: `self.begin = False`, empty table. -/
def sqlInit : SQLState := { begin := none, rows := 0 }

/-- `SQLProcessor.process(records)` called at wall-clock time `now`:
sets `self.begin = time.time()` (on every call, not only the first) and
inserts every record. -/
def sqlProcess (s : SQLState) (records : List Record) (now : Rat) : SQLState :=
  { begin := some now, rows := s.rows + records.length }

/-- `SQLProcessor.report()` called at wall-clock time `now`.
`if not self.begin: return ''` — begin is falsy while still `False` (and
for a zero timestamp); the summary line computes `count / duration` with
`duration = time.time() - self.begin` and no zero guard.  Result:
`.ok none` is the empty report, `.ok (some q)` a summary whose throughput
figure is `q`, `.error ()` the `ZeroDivisionError` escaping from
`count / duration`. -/
def sqlReport (s : SQLState) (now : Rat) : Except Unit (Option Rat) :=
  match s.begin with
  | none => .ok none
  | some b =>
      if b = 0 then .ok none
      else
        let duration := now - b
        if duration = 0 then .error ()
        else .ok (some ((s.rows : Rat) / duration))

/-! ## httptop.py — NginxHttpInfo record enrichment -/

/-- `utils.to_int` wrapped back into a record value. -/
def toIntV (v : Val) : Except Unit Val := (toInt v).map .vInt

/-- `utils.to_float` wrapped back into a record value. -/
def toFloatV (v : Val) : Except Unit Val := (toFloat v).map .vRat

/-- `NginxHttpInfo.map_field(field, func, dict_sequence)`: for every record,
`item[field] = func(item.get(field, None))` and yield it; a `ValueError`
from `func` silently drops that record and the generator continues with
the next one. -/
def mapField (field : Str) (f : Val → Except Unit Val) (rs : List Record) :
    List Record :=
  rs.filterMap (fun r =>
    match f (recGetD r field) with
    | .ok v => some (recSet r field v)
    | .error _ => none)

/-- `NginxHttpInfo.add_field(field, func, dict_sequence)`: yield each record
unchanged when it already has `field`, otherwise with `item[field] = func(item)`.
There is no exception handler here, so an exception raised by `func`
propagates out of the generator and aborts the rest of the sequence. -/
def addFieldE (field : Str) (g : Record → Except Unit Val) :
    List Record → Except Unit (List Record)
  | [] => .ok []
  | r :: rest =>
      match (if recHas r field then .ok r else (g r).map (recSet r field) :
             Except Unit Record) with
      | .error e => .error e
      | .ok r2 => (addFieldE field g rest).map (r2 :: ·)

/-- `NginxHttpInfo.parse_status_type`:
`record['status'] // 100 if 'status' in record else None`.  The error case
is the `TypeError` Python would raise when `//` is applied to a non-integer
status (unreachable after the status-coercion step of `parse_log`). -/
def parseStatusType (r : Record) : Except Unit Val :=
  match recGet r kStatus with
  | none => .ok .vNone
  | some (.vInt n) => .ok (.vInt (Int.fdiv n 100))
  | some _ => .error ()

/-- The `lambda r: r['body_bytes_sent']` used by `parse_log` to derive
`bytes_sent`; a missing key is a `KeyError`. -/
def bodyBytesOf (r : Record) : Except Unit Val :=
  match recGet r kBodyBytesSent with
  | some v => .ok v
  | none => .error ()

/-- The `.path` of `urllib.parse.urlparse` for the scheme-less URIs this
program feeds it (the middle of an nginx request line, e.g. `/a/b?q=1`):
everything before the first `?` or `#`. -/
def pyUrlparsePath (s : Str) : Str := s.takeWhile (fun c => c != '?' && c != '#')

/-- `NginxHttpInfo.parse_request_path`: prefer `request_uri`; otherwise
re-join `request.split(' ')[1:-1]`; then `urlparse(uri).path if uri else None`. -/
def parseRequestPath (r : Record) : Except Unit Val :=
  let uriE : Except Unit Val :=
    if recHas r kRequestUri then .ok (recGetD r kRequestUri)
    else if recHas r kRequest then
      match recGetD r kRequest with
      | .vStr s => .ok (.vStr (List.intercalate [' '] (((s.splitOn ' ').drop 1).dropLast)))
      | _ => .error ()
    else .ok .vNone
  match uriE with
  | .error e => .error e
  | .ok uri =>
      if pyTruthy uri then
        match uri with
        | .vStr s => .ok (.vStr (pyUrlparsePath s))
        | _ => .error ()
      else .ok .vNone

/-- The enrichment chain of `NginxHttpInfo.parse_log`, applied to the
records that matched the pattern, in source order: coerce `status`,
derive `status_type`, derive `bytes_sent` from `body_bytes_sent`, coerce
`bytes_sent`, coerce `request_time`, derive `request_path`. -/
def enrichRecords (rs : List Record) : Except Unit (List Record) := do
  let rs1 := mapField kStatus toIntV rs
  let rs2 ← addFieldE kStatusType parseStatusType rs1
  let rs3 ← addFieldE kBytesSent bodyBytesOf rs2
  let rs4 := mapField kBytesSent toIntV rs3
  let rs5 := mapField kRequestTime toFloatV rs4
  addFieldE kRequestPath parseRequestPath rs5

/-- A successful `m.groupdict()` turned into a record dict. -/
def groupdictToRecord (bs : List (Str × Str)) : Record :=
  bs.map (fun p => (p.1, .vStr p.2))

/-- `NginxHttpInfo.parse_log(lines)`: match every line against the
compiled pattern, keep the matches (`if m is not None`), and enrich. -/
def parseLogLines (pat : List Seg) (lines : List Str) : Except Unit (List Record) :=
  enrichRecords (lines.filterMap (fun l => (matchSegs pat l).map groupdictToRecord))

/-- The filter stages of `NginxHttpInfo.process_log`: a generator
`(x for x in xs if eval(exp, ..., x))` consumed downstream.  The predicate
models the `eval` of the configured expression; an exception from `eval`
propagates out of the generator and aborts the whole iteration — there is
no handler around it. -/
def pyFilterE {α : Type} (p : α → Except Unit Bool) : List α → Except Unit (List α)
  | [] => .ok []
  | x :: xs =>
      match p x with
      | .error e => .error e
      | .ok b => (pyFilterE p xs).map (fun t => if b then x :: t else t)

/-- `NginxHttpInfo.process_log(lines)` up to the processor hand-off:
pre-filter the raw lines, parse and enrich, filter the records.  The
returned list is what `self.processor.process(records)` receives. -/
def processLog (pat : List Seg) (preF : Str → Except Unit Bool)
    (fltr : Record → Except Unit Bool) (lines : List Str) :
    Except Unit (List Record) := do
  let ls ← pyFilterE preF lines
  let rs ← parseLogLines pat ls
  pyFilterE fltr rs

/-! ## dict_processor.py — ClientInfo / StreamInfo / DictProcessor

Wall-clock reads (`calendar.timegm(datetime.utcfromtimestamp(time.time())
.utctimetuple())`) are passed in as an integer `now`.  The timestamp parser
`ClientInfo.parse_time` delegates to the external `dateutil` library, so it
is injected as a function argument `pt` applied to the raw field value.
Exceptions raised mid-method leave the mutations already performed in
place, so these methods return the partially-updated object together with
a `raised` flag instead of an `Except`. -/

/-- `dict_processor.ClientInfo`: per-client state. -/
structure ClientInfo where
  name : Val
  join_ts : Option Int
  status : Option Int
  detail : Val
deriving DecidableEq, Repr

/-- `ClientInfo.__init__(name)`. -/
def clientInit (name : Val) : ClientInfo :=
  { name := name, join_ts := none, status := none, detail := .vStr [] }

/-- The `join_ts` block of `ClientInfo.parse_info` (source lines 36-43):
runs only while `join_ts is None`; branch order is the source's — `'time'
in records` first, then `'time_local'`, then wall-clock now.  A
`ValueError` out of `to_int` raises before the assignment (flag true). -/
def clientStep1 (c : ClientInfo) (records : Record) (now : Int)
    (pt : Val → Int) : ClientInfo × Bool :=
  if c.join_ts.isNone then
    if recHas records kTime then
      match toInt (recGetD records kTime) with
      | .error _ => (c, true)
      | .ok v => ({ c with join_ts := some (now - v * 1000) }, false)
    else if recHas records kTimeLocal then
      ({ c with join_ts := some (pt (recGetD records kTimeLocal)) }, false)
    else ({ c with join_ts := some now }, false)
  else (c, false)

/-- The `status` block of `ClientInfo.parse_info` (source lines 45-47). -/
def clientStep2 (c1 : ClientInfo) (records : Record) : ClientInfo × Bool :=
  if recHas records kStatus then
    match toInt (recGetD records kStatus) with
    | .error _ => (c1, true)
    | .ok v => ({ c1 with status := some v }, false)
  else (c1, false)

/-- The `http_user_agent` block of `ClientInfo.parse_info` (source lines
49-50). -/
def clientStep3 (c2 : ClientInfo) (records : Record) : ClientInfo :=
  if recHas records kHttpUserAgent then
    { c2 with detail := recGetD records kHttpUserAgent }
  else c2

/-- `ClientInfo.parse_info(records)` at wall-clock second `now`, with the
`parse_time` library call injected as `pt`: the three statement blocks in
source order, a raise in an earlier block skipping the later ones while
keeping the mutations already made.  The returned flag is true when a
`ValueError` escaped from `to_int`. -/
def clientParseInfo (c : ClientInfo) (records : Record) (now : Int)
    (pt : Val → Int) : ClientInfo × Bool :=
  match clientStep1 c records now pt with
  | (c1, true) => (c1, true)
  | (c1, false) =>
      match clientStep2 c1 records with
      | (c2, true) => (c2, true)
      | (c2, false) => (clientStep3 c2 records, false)

/-- `dict_processor.StreamInfo`: per-stream aggregate state.  `clients` is
the `request_path → ClientInfo` dict, in insertion order. -/
structure StreamInfo where
  name : Str
  in_bytes : Int
  in_bw : Int
  out_bytes : Int
  out_bw : Rat
  start_ts : Int
  clients : List (Val × ClientInfo)
deriving DecidableEq, Repr

/-- `StreamInfo.__init__(name)`. -/
def streamInit (name : Str) : StreamInfo :=
  { name := name, in_bytes := 0, in_bw := 0, out_bytes := 0, out_bw := 0,
    start_ts := 0, clients := [] }

/-- Update of one key in the clients dict. -/
def clientsSet (l : List (Val × ClientInfo)) (k : Val) (v : ClientInfo) :
    List (Val × ClientInfo) :=
  match l with
  | [] => [(k, v)]
  | (k0, v0) :: rest =>
      if k0 = k then (k0, v) :: rest else (k0, v0) :: clientsSet rest k v

/-- Lookup in the clients dict. -/
def clientsGet (l : List (Val × ClientInfo)) (k : Val) : Option ClientInfo :=
  (l.find? (fun p => p.1 = k)).map Prod.snd

/-- The `start_ts` update of `StreamInfo.parse_info` (source lines 79-80). -/
def streamTailStart (s1 : StreamInfo) (j : Int) : StreamInfo :=
  if s1.start_ts = 0 || s1.start_ts > j then { s1 with start_ts := j } else s1

/-- The `in_bytes` accumulation (source lines 84-85). -/
def streamTailInBytes (s2 : StreamInfo) (records : Record) : StreamInfo × Bool :=
  if recHas records kInBytes then
    match toInt (recGetD records kInBytes) with
    | .error _ => (s2, true)
    | .ok v => ({ s2 with in_bytes := s2.in_bytes + v }, false)
  else (s2, false)

/-- The `in_bw` update (source lines 87-88). -/
def streamTailInBw (s3 : StreamInfo) (records : Record) : StreamInfo × Bool :=
  if recHas records kInBw then
    match toInt (recGetD records kInBw) with
    | .error _ => (s3, true)
    | .ok v => ({ s3 with in_bw := v }, false)
  else (s3, false)

/-- The `out_bytes` accumulation (source lines 90-93); the `bytes_sent`
branch reads `records['body_bytes_sent']`, a `KeyError` when absent. -/
def streamTailOutBytes (s4 : StreamInfo) (records : Record) : StreamInfo × Bool :=
  if recHas records kOutBytes then
    match toInt (recGetD records kOutBytes) with
    | .error _ => (s4, true)
    | .ok v => ({ s4 with out_bytes := s4.out_bytes + v }, false)
  else if recHas records kBytesSent then
    match recGet records kBodyBytesSent with
    | none => (s4, true)
    | some bbs =>
        match toInt bbs with
        | .error _ => (s4, true)
        | .ok v => ({ s4 with out_bytes := s4.out_bytes + v }, false)
  else (s4, false)

/-- The `out_bw` computation (source lines 95-101): taken from the record
when present, otherwise `out_bytes / duration * 1000 / 1024.0` for a
positive duration and `out_bytes / 1024.0` otherwise.  This codebase runs
under Python 2 (`urllib2`, `itervalues`, no `__future__` division), so in
`out_bytes / duration * 1000 / 1024.0` the leftmost division is int/int
and *floors* (toward minus infinity, `Int.fdiv`); the `* 1000` is integer
multiplication and only the final `/ 1024.0` is float division.  The
`else` branch divides an int by the float literal `1024.0`, which is true
division. -/
def streamTailOutBw (s5 : StreamInfo) (records : Record) (duration : Int) :
    StreamInfo × Bool :=
  if recHas records kOutBw then
    match toInt (recGetD records kOutBw) with
    | .error _ => (s5, true)
    | .ok v => ({ s5 with out_bw := (v : Rat) }, false)
  else
    if duration > 0 then
      ({ s5 with out_bw := ((s5.out_bytes.fdiv duration * 1000 : Int) : Rat) / 1024 }, false)
    else
      ({ s5 with out_bw := (s5.out_bytes : Rat) / 1024 }, false)

/-- The tail of `StreamInfo.parse_info` (source lines 79-101), entered once
the client exists and its `parse_info` returned without raising; `j` is
that client's `join_ts` and `duration = now - j`.  The statement blocks run
in source order; a raise skips the later blocks, keeping earlier
mutations. -/
def streamParseTail (s1 : StreamInfo) (records : Record) (now : Int) (j : Int) :
    StreamInfo × Bool :=
  match streamTailInBytes (streamTailStart s1 j) records with
  | (s3, true) => (s3, true)
  | (s3, false) =>
      match streamTailInBw s3 records with
      | (s4, true) => (s4, true)
      | (s4, false) =>
          match streamTailOutBytes s4 records with
          | (s5, true) => (s5, true)
          | (s5, false) => streamTailOutBw s5 records (now - j)

/-- `StreamInfo.parse_info(records)` at wall-clock second `now`.  Follows
the source line by line: no-op without `remote_addr`; create or fetch the
client under `records['remote_addr']` and run its `parse_info` — a raise
before source line 74 leaves a brand-new client un-registered, while an
existing client is updated in place even when `parse_info` raises — then
run the numeric tail `streamParseTail` with the client's `join_ts`
(present whenever `parse_info` returned cleanly). -/
def streamParseInfo (s : StreamInfo) (records : Record) (now : Int)
    (pt : Val → Int) : StreamInfo × Bool :=
  if !recHas records kRemoteAddr then (s, false)
  else
    match clientsGet s.clients (recGetD records kRemoteAddr) with
    | none =>
        match clientParseInfo (clientInit (recGetD records kRemoteAddr)) records now pt with
        | (_, true) => (s, true)
        | (ci, false) =>
            streamParseTail
              { s with clients := clientsSet s.clients (recGetD records kRemoteAddr) ci }
              records now (ci.join_ts.getD 0)
    | some ci0 =>
        match clientParseInfo ci0 records now pt with
        | (ci, true) =>
            ({ s with clients := clientsSet s.clients (recGetD records kRemoteAddr) ci }, true)
        | (ci, false) =>
            streamParseTail
              { s with clients := clientsSet s.clients (recGetD records kRemoteAddr) ci }
              records now (ci.join_ts.getD 0)

/-- The per-stream megabyte figure of `DictProcessor.report`:
`stream.out_bytes / 1024.0 / 1024.0` rendered through `%d` (truncation). -/
def streamReportMBytes (s : StreamInfo) : Int :=
  pyTrunc ((s.out_bytes : Rat) / 1024 / 1024)

/-- The summary megabyte figure of `DictProcessor.report`: the sum of
`out_bytes` over all streams, divided by `1024.0` twice and rendered
through `%d`. -/
def totalReportMBytes (streams : List StreamInfo) : Int :=
  pyTrunc (((streams.map (·.out_bytes)).sum : Rat) / 1024 / 1024)

/-! ## Decidability of Except equality (for concrete evaluations) -/

instance {ε α : Type} [DecidableEq ε] [DecidableEq α] : DecidableEq (Except ε α) := fun x y =>
  match x, y with
  | .error e, .error f => if h : e = f then isTrue (h ▸ rfl) else isFalse (by simp [h])
  | .error _, .ok _ => isFalse (by simp)
  | .ok _, .error _ => isFalse (by simp)
  | .ok a, .ok b => if h : a = b then isTrue (h ▸ rfl) else isFalse (by simp [h])

/-! ## The round-trip property of `build_pattern`

Vocabulary for reasoning about a compiled pattern `segs` and an assignment
`rho` of values to placeholder names:

* `litLen segs` — total length of the literal segments;
* `litCharsOf segs` — the format's literal characters, pooled;
* `substFormat rho segs` — the line obtained by substituting `rho n` for
  every `$n` placeholder;
* `intendedBindings rho segs` — the field map the round-trip property
  expects the matcher to recover. -/

/-- Total length of the literal segments of a pattern. -/
def litLen : List Seg → Nat
  | [] => 0
  | .lit s :: rest => s.length + litLen rest
  | .var _ :: rest => litLen rest

/-- All literal characters of the pattern, concatenated. -/
def litCharsOf : List Seg → Str
  | [] => []
  | .lit s :: rest => s ++ litCharsOf rest
  | .var _ :: rest => litCharsOf rest

/-- Does every literal character of the pattern satisfy `S`? -/
def litsInB (S : Char → Bool) (segs : List Seg) : Bool :=
  segs.all (fun seg => match seg with | .lit s => s.all S | .var _ => true)

/-- Are all literal segments nonempty?  (True of every pattern `parseFormat`
produces: its literal segments are single characters.) -/
def litsNonemptyB (segs : List Seg) : Bool :=
  segs.all (fun seg => match seg with | .lit s => !s.isEmpty | .var _ => true)

/-- No two placeholders are adjacent: between any two named groups there is
at least one literal segment. -/
def wellSeparated : List Seg → Bool
  | [] => true
  | [_] => true
  | .var _ :: .var _ :: _ => false
  | _ :: s2 :: rest => wellSeparated (s2 :: rest)

/-- Does every substituted value avoid `S` and the newline character?  (A
greedy `.*` group cannot capture a newline.) -/
def valsAvoidB (S : Char → Bool) (rho : Str → Str) (segs : List Seg) : Bool :=
  segs.all (fun seg => match seg with
    | .var n => (rho n).all (fun c => !S c && c != '\n')
    | .lit _ => true)

/-- The line obtained by substituting `rho n` for each `$n` placeholder of
the format. -/
def substFormat (rho : Str → Str) : List Seg → Str
  | [] => []
  | .lit s :: rest => s ++ substFormat rho rest
  | .var n :: rest => rho n ++ substFormat rho rest

/-- The field map the round-trip property expects: each placeholder bound
to its substituted value, in pattern order. -/
def intendedBindings (rho : Str → Str) (segs : List Seg) : List (Str × Str) :=
  segs.filterMap (fun seg => match seg with
    | .var n => some (n, rho n)
    | .lit _ => none)

/-- Inversion for `greedy`: a successful greedy match of a `.*` group
splits the input at some point within the allowed window and continues. -/
theorem greedy_some_inv (k : Str → Option (List (Str × Str))) (n : Str) :
    ∀ (i : Nat) (cs : Str) (bs : List (Str × Str)),
      greedy k n i cs = some bs →
      ∃ j bs2, j ≤ i ∧ k (cs.drop j) = some bs2 ∧ bs = (n, cs.take j) :: bs2 := by
  intro i
  induction i with
  | zero =>
      intro cs bs h
      unfold greedy at h
      cases hk : k cs with
      | none => rw [hk] at h; exact absurd h (by simp)
      | some bs2 =>
          rw [hk] at h
          refine ⟨0, bs2, Nat.le_refl 0, by simpa using hk, ?_⟩
          simpa using h.symm
  | succ i ih =>
      intro cs bs h
      unfold greedy at h
      cases hk : k (cs.drop (i + 1)) with
      | some bs2 =>
          rw [hk] at h
          exact ⟨i + 1, bs2, Nat.le_refl _, hk, by simpa using h.symm⟩
      | none =>
          rw [hk] at h
          obtain ⟨j, bs2, hj, hkj, hbs⟩ := ih cs bs h
          exact ⟨j, bs2, Nat.le_succ_of_le hj, hkj, hbs⟩

theorem litsInB_cons_lit (S : Char → Bool) (s : Str) (tl : List Seg) :
    litsInB S (.lit s :: tl) = (s.all S && litsInB S tl) := by
  simp [litsInB]

theorem litsInB_cons_var (S : Char → Bool) (n : Str) (tl : List Seg) :
    litsInB S (.var n :: tl) = litsInB S tl := by
  simp [litsInB]

theorem litsNonemptyB_cons_lit (s : Str) (tl : List Seg) :
    litsNonemptyB (.lit s :: tl) = (!s.isEmpty && litsNonemptyB tl) := by
  simp [litsNonemptyB]

theorem litsNonemptyB_cons_var (n : Str) (tl : List Seg) :
    litsNonemptyB (.var n :: tl) = litsNonemptyB tl := by
  simp [litsNonemptyB]

theorem valsAvoidB_cons_lit (S : Char → Bool) (rho : Str → Str) (s : Str)
    (tl : List Seg) :
    valsAvoidB S rho (.lit s :: tl) = valsAvoidB S rho tl := by
  simp [valsAvoidB]

theorem valsAvoidB_cons_var (S : Char → Bool) (rho : Str → Str) (n : Str)
    (tl : List Seg) :
    valsAvoidB S rho (.var n :: tl) =
      ((rho n).all (fun c => !S c && c != '\n') && valsAvoidB S rho tl) := by
  simp [valsAvoidB]

/-- Counting lemma: a pattern whose literal characters all satisfy `S` can
only match an input holding at least `litLen` many `S`-characters — the
literal segments occupy disjoint stretches of the input and captures cannot
produce characters. -/
theorem litLen_le_countP (S : Char → Bool) :
    ∀ (segs : List Seg) (cs : Str) (bs : List (Str × Str)),
      litsInB S segs = true → matchSegs segs cs = some bs →
      litLen segs ≤ cs.countP S := by
  intro segs
  induction segs with
  | nil => intro cs bs _ _; exact Nat.zero_le _
  | cons hd tl ih =>
      cases hd with
      | lit s =>
          intro cs bs hlits hm
          rw [litsInB_cons_lit] at hlits
          obtain ⟨hs, hlits_tl⟩ := (Bool.and_eq_true _ _).mp hlits
          unfold matchSegs at hm
          by_cases hpre : s.isPrefixOf cs
          · rw [if_pos hpre] at hm
            obtain ⟨t, ht⟩ := List.isPrefixOf_iff_prefix.mp hpre
            subst ht
            have hdrop : (s ++ t).drop s.length = t := List.drop_left s t
            rw [hdrop] at hm
            have h1 := ih t bs hlits_tl hm
            have hcount : s.countP S = s.length :=
              List.countP_eq_length.mpr (fun a ha => List.all_eq_true.mp hs a ha)
            rw [List.countP_append]
            unfold litLen
            omega
          · rw [if_neg hpre] at hm
            exact absurd hm (by simp)
      | var n =>
          intro cs bs hlits hm
          rw [litsInB_cons_var] at hlits
          unfold matchSegs at hm
          obtain ⟨j, bs2, _, hkj, _⟩ := greedy_some_inv (matchSegs tl) n _ cs bs hm
          have h1 := ih (cs.drop j) bs2 hlits hkj
          have h2 : (cs.drop j).countP S ≤ cs.countP S := by
            conv_rhs => rw [← List.take_append_drop j cs]
            rw [List.countP_append]
            omega
          unfold litLen
          omega

theorem intendedBindings_cons_lit (rho : Str → Str) (s : Str) (tl : List Seg) :
    intendedBindings rho (.lit s :: tl) = intendedBindings rho tl := by
  simp [intendedBindings]

theorem intendedBindings_cons_var (rho : Str → Str) (n : Str) (tl : List Seg) :
    intendedBindings rho (.var n :: tl) = (n, rho n) :: intendedBindings rho tl := by
  simp [intendedBindings]

/-- Dropping a prefix cannot increase the count of `S`-characters. -/
theorem countP_drop_le (S : Char → Bool) (l : Str) (j : Nat) :
    (l.drop j).countP S ≤ l.countP S := by
  conv_rhs => rw [← List.take_append_drop j l]
  rw [List.countP_append]
  omega

/-- The substituted line holds exactly `litLen` many literal characters when
the values avoid them all. -/
theorem countP_substFormat (S : Char → Bool) (rho : Str → Str) :
    ∀ segs, litsInB S segs = true → valsAvoidB S rho segs = true →
      (substFormat rho segs).countP S = litLen segs := by
  intro segs
  induction segs with
  | nil => intro _ _; rfl
  | cons hd tl ih =>
      cases hd with
      | lit s =>
          intro h1 h2
          rw [litsInB_cons_lit] at h1
          obtain ⟨hs, h1tl⟩ := (Bool.and_eq_true _ _).mp h1
          rw [valsAvoidB_cons_lit] at h2
          show (s ++ substFormat rho tl).countP S = s.length + litLen tl
          rw [List.countP_append, ih h1tl h2,
              List.countP_eq_length.mpr (fun a ha => List.all_eq_true.mp hs a ha)]
      | var n =>
          intro h1 h2
          rw [litsInB_cons_var] at h1
          rw [valsAvoidB_cons_var] at h2
          obtain ⟨hv, h2tl⟩ := (Bool.and_eq_true _ _).mp h2
          show (rho n ++ substFormat rho tl).countP S = litLen tl
          rw [List.countP_append, ih h1 h2tl]
          have hz : (rho n).countP S = 0 := by
            apply List.countP_eq_zero.mpr
            intro a ha
            have h := (Bool.and_eq_true _ _).mp (List.all_eq_true.mp hv a ha)
            simp only [Bool.not_eq_true'] at h
            simp [h.1]
          rw [hz]
          omega

theorem nlFreeLen_le_length (cs : Str) : nlFreeLen cs ≤ cs.length :=
  (List.takeWhile_sublist _).length_le

/-- A newline-free block at the front of the input is inside the window a
greedy `.*` may capture. -/
theorem nlFreeLen_append_ge (v t : Str) (hv : ∀ c ∈ v, (c != '\n') = true) :
    v.length ≤ nlFreeLen (v ++ t) := by
  induction v with
  | nil => exact Nat.zero_le _
  | cons c v ih =>
      unfold nlFreeLen
      rw [List.cons_append, List.takeWhile_cons, if_pos (hv c (List.mem_cons_self c v))]
      have h := ih (fun a ha => hv a (List.mem_cons_of_mem c ha))
      unfold nlFreeLen at h
      simp only [List.length_cons]
      omega

theorem nlFreeLen_eq_length (v : Str) (hv : ∀ c ∈ v, (c != '\n') = true) :
    nlFreeLen v = v.length := by
  apply Nat.le_antisymm (nlFreeLen_le_length v)
  have h := nlFreeLen_append_ge v [] hv
  rwa [List.append_nil] at h

/-- Greedy capture resolution: if continuing after the block `v` succeeds
and continuing after any longer capture within the window fails, the greedy
search settles on exactly `v`. -/
theorem greedy_reaches (k : Str → Option (List (Str × Str))) (n : Str) :
    ∀ (m : Nat) (v t : Str) (bs2 : List (Str × Str)),
      v.length ≤ m →
      k t = some bs2 →
      (∀ j, v.length < j → j ≤ m → k ((v ++ t).drop j) = none) →
      greedy k n m (v ++ t) = some ((n, v) :: bs2) := by
  intro m
  induction m with
  | zero =>
      intro v t bs2 hvm hk _
      have hv : v = [] := List.eq_nil_of_length_eq_zero (Nat.le_zero.mp hvm)
      subst hv
      unfold greedy
      rw [List.nil_append, hk]
  | succ i ih =>
      intro v t bs2 hvm hk hfail
      unfold greedy
      by_cases hcase : v.length = i + 1
      · have hdrop : (v ++ t).drop (i + 1) = t := by
          rw [← hcase]; exact List.drop_left v t
        have htake : (v ++ t).take (i + 1) = v := by
          rw [← hcase]; exact List.take_left v t
        rw [hdrop, hk, htake]
      · have hlt : v.length ≤ i := by omega
        have hnone : k ((v ++ t).drop (i + 1)) = none :=
          hfail (i + 1) (by omega) (Nat.le_refl _)
        rw [hnone]
        exact ih v t bs2 hlt hk (fun j h1 h2 => hfail j h1 (Nat.le_succ_of_le h2))

theorem wellSeparated_tail (hd : Seg) (tl : List Seg)
    (h : wellSeparated (hd :: tl) = true) : wellSeparated tl = true := by
  cases tl with
  | nil => rfl
  | cons s2 rest =>
      cases hd <;> cases s2 <;>
        simp only [wellSeparated] at h ⊢ <;> first | exact h | exact absurd h (by simp)

/-- Round-trip core: a pattern whose literal segments are nonempty and keep
placeholders apart, matched against the line obtained by substituting
values that avoid the literal characters and newlines, recovers exactly
the substituted values. -/
theorem matchSegs_substFormat (S : Char → Bool) (rho : Str → Str) :
    ∀ segs, litsInB S segs = true → litsNonemptyB segs = true →
      wellSeparated segs = true → valsAvoidB S rho segs = true →
      matchSegs segs (substFormat rho segs) = some (intendedBindings rho segs) := by
  intro segs
  induction segs with
  | nil => intro _ _ _ _; rfl
  | cons hd tl ih =>
      intro h1 h2 h3 h4
      cases hd with
      | lit s =>
          rw [litsInB_cons_lit] at h1
          obtain ⟨_, h1tl⟩ := (Bool.and_eq_true _ _).mp h1
          rw [litsNonemptyB_cons_lit] at h2
          obtain ⟨_, h2tl⟩ := (Bool.and_eq_true _ _).mp h2
          have h3tl := wellSeparated_tail _ _ h3
          rw [valsAvoidB_cons_lit] at h4
          rw [intendedBindings_cons_lit]
          show (if s.isPrefixOf (s ++ substFormat rho tl) then
                  matchSegs tl ((s ++ substFormat rho tl).drop s.length)
                else none) = _
          rw [if_pos (List.isPrefixOf_iff_prefix.mpr ⟨_, rfl⟩), List.drop_left]
          exact ih h1tl h2tl h3tl h4
      | var n =>
          rw [litsInB_cons_var] at h1
          rw [litsNonemptyB_cons_var] at h2
          rw [valsAvoidB_cons_var] at h4
          obtain ⟨hval, h4tl⟩ := (Bool.and_eq_true _ _).mp h4
          have hvalS : ∀ c ∈ rho n, S c = false := by
            intro c hc
            have h := (Bool.and_eq_true _ _).mp (List.all_eq_true.mp hval c hc)
            simpa using h.1
          have hvalNL : ∀ c ∈ rho n, (c != '\n') = true := by
            intro c hc
            exact ((Bool.and_eq_true _ _).mp (List.all_eq_true.mp hval c hc)).2
          have hcountv : (rho n).countP S = 0 :=
            List.countP_eq_zero.mpr (fun a ha => by simp [hvalS a ha])
          rw [intendedBindings_cons_var]
          cases tl with
          | nil =>
              show greedy (matchSegs []) n
                (nlFreeLen (rho n ++ substFormat rho [])) (rho n ++ substFormat rho []) = _
              show greedy (matchSegs []) n (nlFreeLen (rho n ++ [])) (rho n ++ []) = _
              rw [List.append_nil, nlFreeLen_eq_length _ hvalNL]
              have h := greedy_reaches (matchSegs []) n (rho n).length (rho n) [] []
                (Nat.le_refl _) rfl
                (fun j hj1 hj2 => (Nat.lt_irrefl _ (Nat.lt_of_lt_of_le hj1 hj2)).elim)
              rw [List.append_nil] at h
              rw [h]
              rfl
          | cons s2 rest =>
              cases s2 with
              | var n2 => exact absurd h3 (by simp [wellSeparated])
              | lit L =>
                  have h3tl := wellSeparated_tail _ _ h3
                  rw [litsInB_cons_lit] at h1
                  obtain ⟨hLS, h1rest⟩ := (Bool.and_eq_true _ _).mp h1
                  rw [litsNonemptyB_cons_lit] at h2
                  obtain ⟨hLne, h2rest⟩ := (Bool.and_eq_true _ _).mp h2
                  have hIH := ih (by rw [litsInB_cons_lit, hLS, h1rest]; rfl)
                    (by rw [litsNonemptyB_cons_lit, hLne, h2rest]; rfl) h3tl h4tl
                  show greedy (matchSegs (.lit L :: rest)) n
                    (nlFreeLen (rho n ++ substFormat rho (.lit L :: rest)))
                    (rho n ++ substFormat rho (.lit L :: rest)) = _
                  have hfail : ∀ j, (rho n).length < j →
                      j ≤ nlFreeLen (rho n ++ substFormat rho (.lit L :: rest)) →
                      matchSegs (.lit L :: rest)
                        ((rho n ++ substFormat rho (.lit L :: rest)).drop j) = none := by
                    intro j hj1 _
                    cases hmm : matchSegs (.lit L :: rest)
                        ((rho n ++ substFormat rho (.lit L :: rest)).drop j) with
                    | none => rfl
                    | some bs =>
                        exfalso
                        have hcnt := litLen_le_countP S (.lit L :: rest) _ bs
                          (by rw [litsInB_cons_lit, hLS, h1rest]; rfl) hmm
                        have hj : j = (rho n).length + (j - (rho n).length) := by omega
                        rw [hj, List.drop_append] at hcnt
                        have hd1 : 1 ≤ j - (rho n).length := by omega
                        obtain ⟨c, L2, hL⟩ : ∃ c L2, L = c :: L2 := by
                          cases L with
                          | nil => simp [List.isEmpty] at hLne
                          | cons c L2 => exact ⟨c, L2, rfl⟩
                        have hdrop_le :
                            ((substFormat rho (.lit L :: rest)).drop (j - (rho n).length)).countP S
                              ≤ (L2 ++ substFormat rho rest).countP S := by
                          obtain ⟨e, he⟩ : ∃ e, j - (rho n).length = e + 1 :=
                            ⟨j - (rho n).length - 1, by omega⟩
                          have hshape : substFormat rho (.lit L :: rest) =
                              c :: (L2 ++ substFormat rho rest) := by
                            show L ++ substFormat rho rest = _
                            rw [hL]; rfl
                          rw [hshape, he, List.drop_succ_cons]
                          exact countP_drop_le S _ e
                        have hwc : (substFormat rho rest).countP S = litLen rest :=
                          countP_substFormat S rho rest h1rest h4tl
                        have hL2c : L2.countP S = L2.length :=
                          List.countP_eq_length.mpr
                            (fun a ha => List.all_eq_true.mp hLS a (by rw [hL]; exact List.mem_cons_of_mem c ha))
                        have hlit : litLen (Seg.lit L :: rest) = L2.length + 1 + litLen rest := by
                          show L.length + litLen rest = _
                          rw [hL, List.length_cons]
                        rw [List.countP_append, hwc, hL2c] at hdrop_le
                        omega
                  have h := greedy_reaches (matchSegs (.lit L :: rest)) n
                    (nlFreeLen (rho n ++ substFormat rho (.lit L :: rest)))
                    (rho n) (substFormat rho (.lit L :: rest))
                    (intendedBindings rho (.lit L :: rest))
                    (nlFreeLen_append_ge _ _ hvalNL) hIH hfail
                  rw [h]

/-- Every literal segment `parseFormat` produces is a single character, in
particular nonempty. -/
theorem scanFormat_lits_nonempty :
    ∀ (fuel : Nat) (s : Str), litsNonemptyB (scanFormat fuel s) = true := by
  intro fuel
  induction fuel with
  | zero => intro s; rfl
  | succ fuel ih =>
      intro s
      rcases s with _ | ⟨c, rest⟩
      · rfl
      · by_cases hc : c = '$'
        · subst hc
          rw [scanFormat]
          by_cases h : (rest.takeWhile isNameChar).isEmpty
          · simp only [h, if_true, litsNonemptyB_cons_lit, ih rest]
            rfl
          · simp only [h, if_false, litsNonemptyB_cons_var]
            exact ih _
        · rw [scanFormat]
          · rw [litsNonemptyB_cons_lit, ih rest]
            rfl
          · exact hc

theorem parseFormat_lits_nonempty (s : Str) : litsNonemptyB (parseFormat s) = true :=
  scanFormat_lits_nonempty s.length s

theorem mem_litCharsOf {segs : List Seg} {s : Str} (hseg : Seg.lit s ∈ segs)
    {c : Char} (hc : c ∈ s) : c ∈ litCharsOf segs := by
  induction segs with
  | nil => cases hseg
  | cons hd tl ih =>
      rcases List.mem_cons.mp hseg with h | h
      · rw [← h]
        exact List.mem_append_left _ hc
      · cases hd with
        | lit s2 => exact List.mem_append_right _ (ih h)
        | var n => exact ih h

/-- Tautologically, the literal characters of a pattern are among the
pooled literal characters of that pattern. -/
theorem litsInB_litCharsOf (segs : List Seg) :
    litsInB (fun c => (litCharsOf segs).any (· == c)) segs = true := by
  apply List.all_eq_true.mpr
  intro seg hseg
  cases seg with
  | var n => rfl
  | lit s =>
      apply List.all_eq_true.mpr
      intro c hc
      apply List.any_eq_true.mpr
      exact ⟨c, mem_litCharsOf hseg hc, by simp⟩

/-- The value assignment for the C1 counterexample: `a` gets `x`, every
other placeholder gets `y`. -/
def c1rho : Str → Str := fun n => if n = "a".data then "x".data else "y".data

/-- C1 counterexample.  The format string consisting of the two adjacent
well-formed placeholders, and nothing else, defeats the round-trip: it has
no literal characters at all (third conjunct), so every value assignment is
delimiter-free; yet matching the substituted line binds the first
placeholder greedily to the whole line and the second to the empty string,
not each placeholder to its own substituted value. -/
theorem c1_counterexample :
    parseFormat "$a$b".data = [Seg.var "a".data, Seg.var "b".data] ∧
    litCharsOf (parseFormat "$a$b".data) = [] ∧
    matchSegs (buildPattern "$a$b".data) (substFormat c1rho (parseFormat "$a$b".data)) =
      some [("a".data, "xy".data), ("b".data, [])] ∧
    matchSegs (buildPattern "$a$b".data) (substFormat c1rho (parseFormat "$a$b".data)) ≠
      some (intendedBindings c1rho (parseFormat "$a$b".data)) := by
  refine ⟨by decide, by decide, by decide, by decide⟩

/-- C1 (amended).  The round-trip property holds for every format string in
which consecutive placeholders are separated by at least one literal
character, once the format is also within the fragment where the textual
regex construction of `build_pattern` is sound: the format is not one of
the four built-in preset names (those are expanded first), its literal
characters avoid the metacharacters `build_pattern` fails to escape
(`^`, `$`, `\`), its placeholder names are distinct and are valid group
identifiers (Python's `re.compile` rejects duplicated or digit-leading
group names), and the substituted values contain no newline (a greedy `.*`
cannot cross one) and none of the format's literal characters.  Under these
hypotheses, matching the substituted line recovers exactly the substituted
value of every placeholder. -/
theorem c1_round_trip (fmt : Str) (rho : Str → Str)
    (hpreset : fmt ≠ "combined".data ∧ fmt ≠ "common".data ∧
               fmt ≠ "hls_out".data ∧ fmt ≠ "hls_in".data)
    (hsafe : litsInB (fun c => c != '^' && c != '$' && c != '\\') (parseFormat fmt) = true)
    (hsep : wellSeparated (parseFormat fmt) = true)
    (hnames : (varNames (parseFormat fmt)).Nodup)
    (hident : (varNames (parseFormat fmt)).all
        (fun n => match n with | [] => false | c :: _ => !c.isDigit) = true)
    (hvals : valsAvoidB (fun c => (litCharsOf (parseFormat fmt)).any (· == c))
        rho (parseFormat fmt) = true) :
    matchSegs (buildPattern fmt) (substFormat rho (parseFormat fmt)) =
      some (intendedBindings rho (parseFormat fmt)) := by
  have hbp : buildPattern fmt = parseFormat fmt := by
    unfold buildPattern expandFormat
    rw [if_neg hpreset.1, if_neg hpreset.2.1, if_neg hpreset.2.2.1, if_neg hpreset.2.2.2]
  rw [hbp]
  exact matchSegs_substFormat _ rho _ (litsInB_litCharsOf _)
    (parseFormat_lits_nonempty fmt) hsep hvals

/-- The value assignment for the C1 witness. -/
def c1rhoW : Str → Str := fun n => if n = "a".data then "xx".data else "yy".data

/-- Witness for C1 (amended), at the format string with two placeholders
separated by a dash and values free of dashes and newlines. -/
theorem c1_round_trip_witness :
    matchSegs (buildPattern "$a-$b".data) (substFormat c1rhoW (parseFormat "$a-$b".data)) =
      some (intendedBindings c1rhoW (parseFormat "$a-$b".data)) ∧
    intendedBindings c1rhoW (parseFormat "$a-$b".data) =
      [("a".data, "xx".data), ("b".data, "yy".data)] := by
  refine ⟨c1_round_trip "$a-$b".data c1rhoW
    ⟨by decide, by decide, by decide, by decide⟩
    (by decide) (by decide) (by decide) (by decide) (by decide), by decide⟩

set_option maxRecDepth 100000

/-! ## Claim theorems -/

/-- C2 counterexample: after one `process` call (at time 5), a `report` at
the same wall-clock instant raises `ZeroDivisionError` from
`count / duration` instead of reporting a throughput of 0: there is no
zero guard in `SQLProcessor.report`. -/
theorem c2_counterexample :
    sqlReport (sqlProcess sqlInit [[(kStatus, .vInt 200)]] 5) 5 = .error () ∧
    sqlReport (sqlProcess sqlInit [[(kStatus, .vInt 200)]] 5) 5 ≠ .ok (some 0) := by
  constructor
  · norm_num [sqlReport, sqlProcess, sqlInit]
  · norm_num [sqlReport, sqlProcess, sqlInit]
    exact fun h => Except.noConfusion h

/-- C2 (amended).  After `process` is called at time `t` (nonzero, so that
`begin` stays truthy), a later `report` at time `now` computes the
throughput as the table row count divided by the elapsed seconds *since
the most recent `process` call* — `begin` is overwritten on every call —
and when that elapsed time is exactly 0 the report raises
`ZeroDivisionError` rather than reporting 0. -/
theorem c2_throughput (s : SQLState) (rs : List Record) (t now : Rat)
    (ht : t ≠ 0) :
    sqlReport (sqlProcess s rs t) now =
      if now - t = 0 then .error ()
      else .ok (some (((s.rows + rs.length : Nat) : Rat) / (now - t))) := by
  unfold sqlReport sqlProcess
  simp [ht]

/-- Witness for C2 (amended): one record processed at time 3, report at
time 5 — throughput one half of a record per second. -/
theorem c2_throughput_witness :
    (3 : Rat) ≠ 0 ∧
    sqlReport (sqlProcess sqlInit [[(kStatus, .vInt 200)]] 3) 5 = .ok (some (1 / 2)) := by
  refine ⟨by norm_num, ?_⟩
  rw [c2_throughput sqlInit [[(kStatus, .vInt 200)]] 3 5 (by norm_num)]
  norm_num [sqlInit]

/-- C3 counterexample: `build_pattern('hls_in')` does not fail — the empty
`LOG_FORMAT_HLS_IN` expansion compiles to the empty pattern, and that
pattern *does* match lines (here a line shaped like the hls_in sample in
the source comments), yielding an empty field map.  No `InvalidFormat`
error exists anywhere in the code. -/
theorem c3_counterexample :
    buildPattern "hls_in".data = [] ∧
    matchSegs (buildPattern "hls_in".data)
      "127.0.0.1 [16/May/2016:10:40:17 +0000] PUBLISH".data = some [] := by
  exact ⟨by decide, by decide⟩

/-- C3 (amended): compiling the built-in name `hls_in` succeeds and
returns the pattern of the empty format string, whose matcher matches
every line with an empty field map — a configuration footgun, but neither
an `InvalidFormat` error nor a crash. -/
theorem c3_hls_in_matches_every_line (line : Str) :
    matchSegs (buildPattern "hls_in".data) line = some [] := by
  have h : buildPattern "hls_in".data = [] := by decide
  rw [h]
  rfl

/-- C4: a record whose `status` value is a string that fails integer
coercion is silently dropped by the `map_field('status', to_int, ...)`
stage — the `except ValueError: pass` arm — so the whole enrichment
pipeline of `parse_log` behaves on the sequence as if the record were
never there: it is not emitted, downstream counts are unchanged, no error
propagates, and the surrounding records are processed as before. -/
theorem c4_bad_status_dropped (xs ys : List Record) (r : Record) (s : Str)
    (hst : recGetD r kStatus = .vStr s)
    (herr : toInt (.vStr s) = .error ()) :
    mapField kStatus toIntV (xs ++ r :: ys) = mapField kStatus toIntV (xs ++ ys) ∧
    enrichRecords (xs ++ r :: ys) = enrichRecords (xs ++ ys) := by
  have hbad : toIntV (recGetD r kStatus) = .error () := by
    rw [hst]
    unfold toIntV
    rw [herr]
    rfl
  have hmap : mapField kStatus toIntV (xs ++ r :: ys) = mapField kStatus toIntV (xs ++ ys) := by
    unfold mapField
    rw [List.filterMap_append, List.filterMap_append, List.filterMap_cons, hbad]
  exact ⟨hmap, by unfold enrichRecords; rw [hmap]⟩

/-- Witness for C4: a two-record sequence where the first record's status
is the non-numeric `12a`; enrichment equals enrichment of just the second
record. -/
theorem c4_bad_status_dropped_witness :
    recGetD [(kStatus, Val.vStr "12a".data)] kStatus = .vStr "12a".data ∧
    toInt (.vStr "12a".data) = .error () ∧
    enrichRecords [[(kStatus, Val.vStr "12a".data)], [(kStatus, Val.vStr "7".data)]] =
      enrichRecords [[(kStatus, Val.vStr "7".data)]] := by
  refine ⟨by decide, by decide, ?_⟩
  exact (c4_bad_status_dropped [] [[(kStatus, Val.vStr "7".data)]]
    [(kStatus, Val.vStr "12a".data)] "12a".data (by decide) (by decide)).2

/-- C10: `extract_variables` expands only the `combined` preset before
scanning.  The preset names `common`, `hls_out` and `hls_in` are scanned
literally — they contain no `$name` token, so no variables are produced —
even though `build_pattern` expands all four; in particular
`build_pattern('common')` carries the common format's seven fields while
`extract_variables('common')` yields nothing.  On every other string the
function scans the string itself. -/
theorem c10_extract_variables_presets :
    extractVariables "common".data = [] ∧
    extractVariables "hls_out".data = [] ∧
    extractVariables "hls_in".data = [] ∧
    extractVariables "combined".data = varNames (buildPattern "combined".data) ∧
    extractVariables "combined".data ≠ [] ∧
    varNames (buildPattern "common".data) =
      ["remote_addr".data, "remote_user".data, "time_local".data, "request".data,
       "status".data, "body_bytes_sent".data, "http_x_forwarded_for".data] ∧
    (∀ s : Str, s ≠ "combined".data → extractVariables s = varNames (parseFormat s)) := by
  refine ⟨by decide, by decide, by decide, by decide, by decide, by decide, ?_⟩
  intro s hs
  unfold extractVariables
  rw [if_neg hs]

/-- Witness for C10 at the non-`combined` preset name `hls_out`. -/
theorem c10_extract_variables_witness :
    ("hls_out".data ≠ "combined".data) ∧
    extractVariables "hls_out".data = varNames (parseFormat "hls_out".data) :=
  ⟨by decide, c10_extract_variables_presets.2.2.2.2.2.2 "hls_out".data (by decide)⟩

/-- The reference combined-format log line of C8. -/
def c8Line : Str :=
  "192.168.1.10 - - [27/Apr/2016:07:04:48 +0000] \"GET /a/b HTTP/1.1\" 200 227036 \"http://ref\" \"UA\"".data

/-- C8: matching the compiled `combined` preset against the reference line
yields exactly the claimed field values (first conjunct, the full
`groupdict` in group order), and running `parse_log`'s enrichment yields
`status` coerced to the integer 200 with `status_type = 2`,
`bytes_sent = 227036` and `request_path = /a/b` (second conjunct, the full
enriched record; `request_time`, absent from the line, is coerced to 0.0). -/
theorem c8_combined_vector :
    matchSegs (buildPattern "combined".data) c8Line =
      some [("remote_addr".data, "192.168.1.10".data),
            ("remote_user".data, "-".data),
            ("time_local".data, "27/Apr/2016:07:04:48 +0000".data),
            ("request".data, "GET /a/b HTTP/1.1".data),
            ("status".data, "200".data),
            ("body_bytes_sent".data, "227036".data),
            ("http_referer".data, "http://ref".data),
            ("http_user_agent".data, "UA".data)] ∧
    parseLogLines (buildPattern "combined".data) [c8Line] =
      .ok [[(kRemoteAddr, .vStr "192.168.1.10".data),
            ("remote_user".data, .vStr "-".data),
            (kTimeLocal, .vStr "27/Apr/2016:07:04:48 +0000".data),
            (kRequest, .vStr "GET /a/b HTTP/1.1".data),
            (kStatus, .vInt 200),
            (kBodyBytesSent, .vStr "227036".data),
            ("http_referer".data, .vStr "http://ref".data),
            (kHttpUserAgent, .vStr "UA".data),
            (kStatusType, .vInt 2),
            (kBytesSent, .vInt 227036),
            (kRequestTime, .vRat 0),
            (kRequestPath, .vStr "/a/b".data)]] := by
  exact ⟨by decide, by decide⟩

/-- Once `join_ts` is set, `ClientInfo.parse_info` never changes it: the
assignment sits under `if self.join_ts is None`, and the later status and
user-agent updates touch other fields (this also covers the raising runs,
whose partial mutations are kept). -/
theorem clientStep1_of_some (c : ClientInfo) (records : Record) (now : Int)
    (pt : Val → Int) (t : Int) (h : c.join_ts = some t) :
    clientStep1 c records now pt = (c, false) := by
  unfold clientStep1
  rw [h]
  rfl

theorem clientStep2_join (c1 : ClientInfo) (records : Record) :
    (clientStep2 c1 records).1.join_ts = c1.join_ts := by
  unfold clientStep2
  repeat' split
  all_goals rfl

theorem clientStep3_join (c2 : ClientInfo) (records : Record) :
    (clientStep3 c2 records).join_ts = c2.join_ts := by
  unfold clientStep3
  split
  all_goals rfl

theorem clientParseInfo_join_preserved (c : ClientInfo) (records : Record)
    (now : Int) (pt : Val → Int) (t : Int) (h : c.join_ts = some t) :
    (clientParseInfo c records now pt).1.join_ts = some t := by
  unfold clientParseInfo
  rw [clientStep1_of_some c records now pt t h]
  show (match clientStep2 c records with
        | (c2, true) => (c2, true)
        | (c2, false) => (clientStep3 c2 records, false)).1.join_ts = some t
  rcases h2 : clientStep2 c records with ⟨c2, raised⟩
  have hj2 : c2.join_ts = some t := by
    have hh := clientStep2_join c records
    rw [h2] at hh
    rw [hh, h]
  cases raised
  · simpa [clientStep3_join] using hj2
  · simpa using hj2

theorem clientsGet_clientsSet_self (l : List (Val × ClientInfo)) (k : Val)
    (v : ClientInfo) : clientsGet (clientsSet l k v) k = some v := by
  induction l with
  | nil =>
      unfold clientsSet clientsGet
      rw [List.find?_cons_of_pos _ (by simp)]
      rfl
  | cons p rest ih =>
      obtain ⟨k0, v0⟩ := p
      unfold clientsSet
      by_cases hk : k0 = k
      · rw [if_pos hk]
        unfold clientsGet
        rw [List.find?_cons_of_pos _ (by simp [hk])]
        rfl
      · rw [if_neg hk]
        unfold clientsGet at ih ⊢
        rw [List.find?_cons_of_neg _ (by simp [hk])]
        exact ih

theorem clientsGet_clientsSet_other (l : List (Val × ClientInfo)) (k k2 : Val)
    (v : ClientInfo) (h : k ≠ k2) :
    clientsGet (clientsSet l k v) k2 = clientsGet l k2 := by
  induction l with
  | nil =>
      unfold clientsSet clientsGet
      rw [List.find?_cons_of_neg _ (by simp [h]), List.find?_nil]
  | cons p rest ih =>
      obtain ⟨k0, v0⟩ := p
      unfold clientsSet
      by_cases hk : k0 = k
      · subst hk
        rw [if_pos rfl]
        unfold clientsGet
        rw [List.find?_cons_of_neg _ (by simp [h]),
            List.find?_cons_of_neg _ (by simp [h])]
      · rw [if_neg hk]
        unfold clientsGet at ih ⊢
        by_cases hk2 : k0 = k2
        · rw [List.find?_cons_of_pos _ (by simp [hk2]),
              List.find?_cons_of_pos _ (by simp [hk2])]
        · rw [List.find?_cons_of_neg _ (by simp [hk2]),
              List.find?_cons_of_neg _ (by simp [hk2])]
          exact ih

theorem streamTailStart_clients (s1 : StreamInfo) (j : Int) :
    (streamTailStart s1 j).clients = s1.clients := by
  unfold streamTailStart
  split
  all_goals rfl

theorem streamTailInBytes_clients (s2 : StreamInfo) (records : Record) :
    (streamTailInBytes s2 records).1.clients = s2.clients := by
  unfold streamTailInBytes
  repeat' split
  all_goals rfl

theorem streamTailInBw_clients (s3 : StreamInfo) (records : Record) :
    (streamTailInBw s3 records).1.clients = s3.clients := by
  unfold streamTailInBw
  repeat' split
  all_goals rfl

theorem streamTailOutBytes_clients (s4 : StreamInfo) (records : Record) :
    (streamTailOutBytes s4 records).1.clients = s4.clients := by
  unfold streamTailOutBytes
  repeat' split
  all_goals rfl

theorem streamTailOutBw_clients (s5 : StreamInfo) (records : Record)
    (duration : Int) : (streamTailOutBw s5 records duration).1.clients = s5.clients := by
  unfold streamTailOutBw
  repeat' split
  all_goals rfl

/-- The numeric tail of `StreamInfo.parse_info` never touches the clients
dict. -/
theorem streamParseTail_clients (s1 : StreamInfo) (records : Record)
    (now j : Int) : (streamParseTail s1 records now j).1.clients = s1.clients := by
  unfold streamParseTail
  rcases h3 : streamTailInBytes (streamTailStart s1 j) records with ⟨s3, r3⟩
  have hc3 : s3.clients = s1.clients := by
    have hh := streamTailInBytes_clients (streamTailStart s1 j) records
    rw [h3] at hh
    rw [hh, streamTailStart_clients]
  cases r3
  · show (match streamTailInBw s3 records with
          | (s4, true) => (s4, true)
          | (s4, false) =>
            match streamTailOutBytes s4 records with
            | (s5, true) => (s5, true)
            | (s5, false) => streamTailOutBw s5 records (now - j)).1.clients = s1.clients
    rcases h4 : streamTailInBw s3 records with ⟨s4, r4⟩
    have hc4 : s4.clients = s1.clients := by
      have hh := streamTailInBw_clients s3 records
      rw [h4] at hh
      rw [hh, hc3]
    cases r4
    · show (match streamTailOutBytes s4 records with
            | (s5, true) => (s5, true)
            | (s5, false) => streamTailOutBw s5 records (now - j)).1.clients = s1.clients
      rcases h5 : streamTailOutBytes s4 records with ⟨s5, r5⟩
      have hc5 : s5.clients = s1.clients := by
        have hh := streamTailOutBytes_clients s4 records
        rw [h5] at hh
        rw [hh, hc4]
      cases r5
      · show (streamTailOutBw s5 records (now - j)).1.clients = s1.clients
        rw [streamTailOutBw_clients, hc5]
      · exact hc5
    · exact hc4
  · exact hc3

/-- The join timestamp of a `parse_info` run whose first block completed
cleanly is whatever that block left in `join_ts`: the later status and
user-agent blocks never touch it. -/
theorem clientParseInfo_join_of_step1 (c : ClientInfo) (records : Record)
    (now : Int) (pt : Val → Int) (c1 : ClientInfo)
    (hstep : clientStep1 c records now pt = (c1, false)) :
    (clientParseInfo c records now pt).1.join_ts = c1.join_ts := by
  unfold clientParseInfo
  rw [hstep]
  show (match clientStep2 c1 records with
        | (c2, true) => (c2, true)
        | (c2, false) => (clientStep3 c2 records, false)).1.join_ts = c1.join_ts
  rcases h2 : clientStep2 c1 records with ⟨c2, raised⟩
  have hj2 : c2.join_ts = c1.join_ts := by
    have hh := clientStep2_join c1 records
    rw [h2] at hh
    exact hh
  cases raised
  · show (clientStep3 c2 records).join_ts = c1.join_ts
    rw [clientStep3_join]
    exact hj2
  · exact hj2

/-- C5 counterexample: a fresh client fed a record carrying both a `time`
field (value 1) and a `time_local` field gets its join timestamp from the
`time` branch — `now - to_int(time) * 1000 = 9000` here — not from
`parse_time(time_local)`, which is the constant 0 under the injected
`parse_time` used at this input. -/
theorem c5_counterexample :
    (clientParseInfo (clientInit (.vStr "1.2.3.4".data))
        [(kTime, .vStr "1".data), (kTimeLocal, .vStr "27/Apr/2016:07:04:48 +0000".data)]
        10000 (fun _ => 0)).1.join_ts = some 9000 ∧
    some (9000 : Int) ≠
      some ((fun _ => (0 : Int)) (Val.vStr "27/Apr/2016:07:04:48 +0000".data)) := by
  exact ⟨by decide, by decide⟩

/-- C5 (amended): in `ClientInfo.parse_info` the derivation priority for a
fresh join timestamp is the relative `time` offset field first, then the
local timestamp field `time_local`, then wall-clock now — so a record
carrying a coercible `time` field (whether or not `time_local` is also
present) yields `join_ts = now - to_int(time) * 1000`. -/
theorem c5_time_priority (c : ClientInfo) (records : Record) (now : Int)
    (pt : Val → Int) (v : Int)
    (hnone : c.join_ts = none)
    (htime : recHas records kTime = true)
    (hok : toInt (recGetD records kTime) = .ok v) :
    (clientParseInfo c records now pt).1.join_ts = some (now - v * 1000) := by
  have hstep1 : clientStep1 c records now pt =
      ({ c with join_ts := some (now - v * 1000) }, false) := by
    unfold clientStep1
    rw [hnone, if_pos Option.isNone_none, if_pos htime, hok]
  rw [clientParseInfo_join_of_step1 c records now pt _ hstep1]

/-- Witness for C5 (amended): a record with `time = "2"` at wall-clock
5000 gives a join timestamp of 3000. -/
theorem c5_time_priority_witness :
    ((clientInit (Val.vStr "c".data)).join_ts = none) ∧
    recHas [(kTime, Val.vStr "2".data)] kTime = true ∧
    toInt (recGetD [(kTime, Val.vStr "2".data)] kTime) = .ok 2 ∧
    (clientParseInfo (clientInit (Val.vStr "c".data))
        [(kTime, Val.vStr "2".data)] 5000 (fun _ => 0)).1.join_ts = some 3000 := by
  refine ⟨by decide, by decide, by decide, ?_⟩
  have h := c5_time_priority (clientInit (Val.vStr "c".data))
    [(kTime, Val.vStr "2".data)] 5000 (fun _ => 0) 2 (by decide) (by decide) (by decide)
  exact h.trans (by norm_num)

/-- C7 counterexample: with a filter predicate whose evaluation raises on
records with status 500, processing the two-line sequence aborts with the
propagated error — the 500-record is not merely excluded and the rest of
the sequence is not processed, contrary to the claim. -/
theorem c7_counterexample :
    processLog (buildPattern "$status $body_bytes_sent".data)
      (fun _ => .ok true)
      (fun r => if recGet r kStatus = some (.vInt 500) then .error () else .ok true)
      ["200 10".data, "500 7".data] = .error () := by decide

/-- C7 (amended): an error raised while evaluating the filter predicate on
one record propagates out of the filtering generator and aborts the whole
iteration — records after the failing one are never processed, and the
failing record is not individually excluded.  (Only a predicate that
*returns* falsy excludes just its record.) -/
theorem c7_filter_error_aborts {α : Type} (p : α → Except Unit Bool)
    (xs ys : List α) (x : α)
    (hxs : ∀ a ∈ xs, p a ≠ .error ())
    (hx : p x = .error ()) :
    pyFilterE p (xs ++ x :: ys) = .error () := by
  induction xs with
  | nil =>
      show pyFilterE p (x :: ys) = .error ()
      unfold pyFilterE
      rw [hx]
  | cons a rest ih =>
      have ha := hxs a (List.mem_cons_self a rest)
      cases hpa : p a with
      | error e =>
          cases e
          exact absurd hpa ha
      | ok b =>
          show pyFilterE p (a :: (rest ++ x :: ys)) = .error ()
          unfold pyFilterE
          rw [hpa, ih (fun y hy => hxs y (List.mem_cons_of_mem a hy))]
          rfl

/-- Witness for C7 (amended): the predicate raises on the (empty) middle
record, so filtering the three-record sequence errors out. -/
theorem c7_filter_error_aborts_witness :
    (∀ a ∈ [[(kStatus, Val.vInt 1)]],
      (fun r : Record => if recHas r kStatus then Except.ok true else .error ()) a ≠
        .error ()) ∧
    pyFilterE (fun r : Record => if recHas r kStatus then Except.ok true else .error ())
      ([[(kStatus, Val.vInt 1)]] ++ [] :: [[(kStatus, Val.vInt 2)]]) = .error () := by
  refine ⟨by decide, ?_⟩
  exact c7_filter_error_aborts _ [[(kStatus, Val.vInt 1)]] [[(kStatus, Val.vInt 2)]] []
    (by decide) (by decide)

/-- C9: a client's join timestamp is write-once.  First part: once
`ClientInfo.parse_info` has set `join_ts` to a non-`None` value, no later
call changes it (the assignment is guarded by `if self.join_ts is None`),
whether or not the later call raises.  Second part, at the stream level:
running `StreamInfo.parse_info` on any record leaves every already-joined
client's `join_ts` intact, so per-client elapsed times in the report are
always measured from that client's first record. -/
theorem c9_join_ts_write_once :
    (∀ (c : ClientInfo) (records : Record) (now : Int) (pt : Val → Int) (t : Int),
        c.join_ts = some t → (clientParseInfo c records now pt).1.join_ts = some t) ∧
    (∀ (s : StreamInfo) (records : Record) (now : Int) (pt : Val → Int)
        (cl : Val) (ci : ClientInfo) (t : Int),
        clientsGet s.clients cl = some ci → ci.join_ts = some t →
        ∃ ci2, clientsGet (streamParseInfo s records now pt).1.clients cl = some ci2 ∧
          ci2.join_ts = some t) := by
  constructor
  · exact clientParseInfo_join_preserved
  · intro s records now pt cl ci t hget hj
    unfold streamParseInfo
    cases hra : recHas records kRemoteAddr
    · exact ⟨ci, hget, hj⟩
    · show (∃ ci2, clientsGet
        (match clientsGet s.clients (recGetD records kRemoteAddr) with
         | none =>
            match clientParseInfo (clientInit (recGetD records kRemoteAddr)) records now pt with
            | (_, true) => (s, true)
            | (ci, false) =>
                streamParseTail
                  { s with clients := clientsSet s.clients (recGetD records kRemoteAddr) ci }
                  records now (ci.join_ts.getD 0)
         | some ci0 =>
            match clientParseInfo ci0 records now pt with
            | (ci, true) =>
                ({ s with clients := clientsSet s.clients (recGetD records kRemoteAddr) ci }, true)
            | (ci, false) =>
                streamParseTail
                  { s with clients := clientsSet s.clients (recGetD records kRemoteAddr) ci }
                  records now (ci.join_ts.getD 0)).1.clients cl = some ci2 ∧
          ci2.join_ts = some t)
      cases hlook : clientsGet s.clients (recGetD records kRemoteAddr) with
      | none =>
          have hne : recGetD records kRemoteAddr ≠ cl := by
            intro he
            rw [he, hget] at hlook
            exact Option.noConfusion hlook
          rcases hcp : clientParseInfo (clientInit (recGetD records kRemoteAddr))
              records now pt with ⟨ci1, raised⟩
          cases raised
          · show ∃ ci2, clientsGet (streamParseTail
                { s with clients := clientsSet s.clients (recGetD records kRemoteAddr) ci1 }
                records now (ci1.join_ts.getD 0)).1.clients cl = some ci2 ∧
              ci2.join_ts = some t
            rw [streamParseTail_clients]
            show ∃ ci2,
              clientsGet (clientsSet s.clients (recGetD records kRemoteAddr) ci1) cl =
                some ci2 ∧ ci2.join_ts = some t
            rw [clientsGet_clientsSet_other _ _ _ _ hne, hget]
            exact ⟨ci, rfl, hj⟩
          · exact ⟨ci, hget, hj⟩
      | some ci0 =>
          show (∃ ci2, clientsGet
              (match clientParseInfo ci0 records now pt with
               | (ci, true) =>
                  ({ s with clients := clientsSet s.clients (recGetD records kRemoteAddr) ci },
                    true)
               | (ci, false) =>
                  streamParseTail
                    { s with clients := clientsSet s.clients (recGetD records kRemoteAddr) ci }
                    records now (ci.join_ts.getD 0)).1.clients cl = some ci2 ∧
            ci2.join_ts = some t)
          rcases hcp : clientParseInfo ci0 records now pt with ⟨ci1, raised⟩
          by_cases he : recGetD records kRemoteAddr = cl
          · have hci0 : ci0 = ci := by
              rw [he, hget] at hlook
              exact (Option.some.inj hlook).symm
            have hj1 : ci1.join_ts = some t := by
              have hh := clientParseInfo_join_preserved ci0 records now pt t
                (by rw [hci0]; exact hj)
              rw [hcp] at hh
              exact hh
            cases raised
            · show ∃ ci2, clientsGet (streamParseTail
                  { s with clients := clientsSet s.clients (recGetD records kRemoteAddr) ci1 }
                  records now (ci1.join_ts.getD 0)).1.clients cl = some ci2 ∧
                ci2.join_ts = some t
              rw [streamParseTail_clients]
              show ∃ ci2,
                clientsGet (clientsSet s.clients (recGetD records kRemoteAddr) ci1) cl =
                  some ci2 ∧ ci2.join_ts = some t
              rw [he, clientsGet_clientsSet_self]
              exact ⟨ci1, rfl, hj1⟩
            · show ∃ ci2,
                clientsGet (clientsSet s.clients (recGetD records kRemoteAddr) ci1) cl =
                  some ci2 ∧ ci2.join_ts = some t
              rw [he, clientsGet_clientsSet_self]
              exact ⟨ci1, rfl, hj1⟩
          · cases raised
            · show ∃ ci2, clientsGet (streamParseTail
                  { s with clients := clientsSet s.clients (recGetD records kRemoteAddr) ci1 }
                  records now (ci1.join_ts.getD 0)).1.clients cl = some ci2 ∧
                ci2.join_ts = some t
              rw [streamParseTail_clients]
              show ∃ ci2,
                clientsGet (clientsSet s.clients (recGetD records kRemoteAddr) ci1) cl =
                  some ci2 ∧ ci2.join_ts = some t
              rw [clientsGet_clientsSet_other _ _ _ _ he, hget]
              exact ⟨ci, rfl, hj⟩
            · show ∃ ci2,
                clientsGet (clientsSet s.clients (recGetD records kRemoteAddr) ci1) cl =
                  some ci2 ∧ ci2.join_ts = some t
              rw [clientsGet_clientsSet_other _ _ _ _ he, hget]
              exact ⟨ci, rfl, hj⟩

/-- Witness for C9: a client already joined at timestamp 7 keeps it both
through a direct `parse_info` call and through the stream update. -/
theorem c9_join_ts_write_once_witness :
    ((clientParseInfo ⟨Val.vStr "c".data, some 7, none, Val.vStr []⟩
        [(kStatus, Val.vStr "200".data)] 50 (fun _ => 0)).1.join_ts = some 7) ∧
    (∃ ci2, clientsGet (streamParseInfo
        { streamInit "s".data with
          clients := [(Val.vStr "c".data, ⟨Val.vStr "c".data, some 7, none, Val.vStr []⟩)] }
        [(kRemoteAddr, Val.vStr "c".data)] 50 (fun _ => 0)).1.clients
        (Val.vStr "c".data) = some ci2 ∧ ci2.join_ts = some 7) := by
  constructor
  · exact c9_join_ts_write_once.1 _ _ 50 _ 7 (by decide)
  · exact c9_join_ts_write_once.2 _ _ 50 _ (Val.vStr "c".data)
      ⟨Val.vStr "c".data, some 7, none, Val.vStr []⟩ 7 (by decide) (by decide)

theorem streamTailStart_out_bytes (s1 : StreamInfo) (j : Int) :
    (streamTailStart s1 j).out_bytes = s1.out_bytes := by
  unfold streamTailStart
  split
  all_goals rfl

/-- Characterization of `StreamInfo.parse_info` for an existing client on a
record that carries `out_bytes` but none of `in_bytes` / `in_bw` /
`out_bw`: the call completes, `out_bytes` grows by the coerced value, and
`out_bw` follows the source formula — Python 2 floor division
`out_bytes // duration`, times 1000, float-divided by 1024, for positive
`duration = now - join_ts`, and `out_bytes / 1024` otherwise. -/
theorem streamParseInfo_out_char (s : StreamInfo) (records : Record) (now : Int)
    (pt : Val → Int) (ci0 ci1 : ClientInfo) (j v : Int)
    (hra : recHas records kRemoteAddr = true)
    (hlook : clientsGet s.clients (recGetD records kRemoteAddr) = some ci0)
    (hcp : clientParseInfo ci0 records now pt = (ci1, false))
    (hj : ci1.join_ts = some j)
    (hnib : recHas records kInBytes = false)
    (hnibw : recHas records kInBw = false)
    (hob : recHas records kOutBytes = true)
    (hobv : toInt (recGetD records kOutBytes) = .ok v)
    (hnobw : recHas records kOutBw = false) :
    (streamParseInfo s records now pt).2 = false ∧
    (streamParseInfo s records now pt).1.out_bytes = s.out_bytes + v ∧
    (streamParseInfo s records now pt).1.out_bw =
      (if now - j > 0
       then (((s.out_bytes + v).fdiv (now - j) * 1000 : Int) : Rat) / 1024
       else ((s.out_bytes + v : Int) : Rat) / 1024) := by
  have hentry : streamParseInfo s records now pt =
      streamParseTail
        { s with clients := clientsSet s.clients (recGetD records kRemoteAddr) ci1 }
        records now j := by
    unfold streamParseInfo
    rw [if_neg (by simp [hra])]
    simp only [hlook, hcp, hj]
    rfl
  have hin : ∀ s2, streamTailInBytes s2 records = (s2, false) := fun s2 => by
    unfold streamTailInBytes
    rw [hnib]
    rfl
  have hinbw : ∀ s3, streamTailInBw s3 records = (s3, false) := fun s3 => by
    unfold streamTailInBw
    rw [hnibw]
    rfl
  have hout : ∀ s4, streamTailOutBytes s4 records =
      ({ s4 with out_bytes := s4.out_bytes + v }, false) := fun s4 => by
    unfold streamTailOutBytes
    rw [hob, if_pos rfl, hobv]
  have houtbw : ∀ s5, streamTailOutBw s5 records (now - j) =
      (if now - j > 0
       then ({ s5 with out_bw := ((s5.out_bytes.fdiv (now - j) * 1000 : Int) : Rat) / 1024 }, false)
       else ({ s5 with out_bw := (s5.out_bytes : Rat) / 1024 }, false)) := fun s5 => by
    unfold streamTailOutBw
    rw [hnobw]
    rfl
  rw [hentry]
  unfold streamParseTail
  simp only [hin, hinbw, hout, houtbw]
  by_cases hd : now - j > 0
  · simp only [hd, if_true, streamTailStart_out_bytes]
    simp
  · simp only [hd, if_false, streamTailStart_out_bytes]
    simp

/-- The C6 counterexample stream: one already-joined client (join 999). -/
def c6Stream : StreamInfo :=
  { streamInit "live".data with
    clients := [(Val.vStr "c".data,
      ⟨Val.vStr "c".data, some 999, none, Val.vStr []⟩)] }

/-- The C6 counterexample record: 1024 output bytes for that client. -/
def c6Rec : Record :=
  [(kRemoteAddr, Val.vStr "c".data), (kOutBytes, Val.vStr "1024".data)]

/-- C6 counterexample: with 1024 cumulative output bytes over an elapsed
duration of exactly 1 second, the code computes
`out_bw = (1024 // 1) * 1000 / 1024.0 = 1000`, whereas the claimed
formula — output bytes per elapsed second converted to kilobytes by
1024-based division — equals `1024 / 1 / 1024 = 1`.  The stray `* 1000`
factor in the source falsifies the claim (at this input the Python 2
floor division is exact, so the factor alone accounts for the gap). -/
theorem c6_counterexample :
    (streamParseInfo c6Stream c6Rec 1000 (fun _ => 0)).1.out_bw = 1000 ∧
    (streamParseInfo c6Stream c6Rec 1000 (fun _ => 0)).1.out_bytes = 1024 ∧
    ((1024 : Rat) / 1 / 1024 = 1) ∧
    ((1000 : Rat) ≠ 1) := by
  have h := streamParseInfo_out_char c6Stream c6Rec 1000 (fun _ => 0)
    ⟨Val.vStr "c".data, some 999, none, Val.vStr []⟩
    ⟨Val.vStr "c".data, some 999, none, Val.vStr []⟩ 999 1024
    (by decide) (by decide) (by decide) (by decide) (by decide) (by decide)
    (by decide) (by decide) (by decide)
  refine ⟨?_, ?_, by norm_num, by norm_num⟩
  · rw [h.2.2, if_pos (by decide),
        show ((c6Stream.out_bytes + 1024).fdiv ((1000 : Int) - 999) * 1000 : Int) = 1024000
          from by decide]
    norm_num
  · rw [h.2.1]
    norm_num [c6Stream, streamInit]

/-- C6 (amended).  For an existing client and a record carrying
`out_bytes` (and none of `in_bytes`, `in_bw`, `out_bw`),
`StreamInfo.parse_info` completes without error — guarding the
zero-duration case rather than dividing by it — and the computed output
bandwidth for a positive elapsed duration is
`(out_bytes // duration) * 1000 / 1024.0`: Python 2 integer floor
division of the byte total by the duration, then an extra factor of 1000
(beyond bytes-per-second divided by 1024), then float division by 1024.
When the duration is zero or negative it is `out_bytes / 1024.0` — the
raw cumulative byte count divided by 1024, not divided by the duration.
Byte totals in `DictProcessor.report` are rendered in megabytes by two
1024-based divisions, per stream and in total. -/
theorem c6_out_bw (s : StreamInfo) (records : Record) (now : Int)
    (pt : Val → Int) (ci0 ci1 : ClientInfo) (j v : Int)
    (hra : recHas records kRemoteAddr = true)
    (hlook : clientsGet s.clients (recGetD records kRemoteAddr) = some ci0)
    (hcp : clientParseInfo ci0 records now pt = (ci1, false))
    (hj : ci1.join_ts = some j)
    (hnib : recHas records kInBytes = false)
    (hnibw : recHas records kInBw = false)
    (hob : recHas records kOutBytes = true)
    (hobv : toInt (recGetD records kOutBytes) = .ok v)
    (hnobw : recHas records kOutBw = false) :
    ((streamParseInfo s records now pt).2 = false ∧
     (streamParseInfo s records now pt).1.out_bytes = s.out_bytes + v ∧
     (streamParseInfo s records now pt).1.out_bw =
       (if now - j > 0
        then (((s.out_bytes + v).fdiv (now - j) * 1000 : Int) : Rat) / 1024
        else ((s.out_bytes + v : Int) : Rat) / 1024)) ∧
    (∀ st : StreamInfo, streamReportMBytes st =
      pyTrunc ((st.out_bytes : Rat) / 1024 / 1024)) ∧
    (∀ streams : List StreamInfo, totalReportMBytes streams =
      pyTrunc (((streams.map (·.out_bytes)).sum : Rat) / 1024 / 1024)) :=
  ⟨streamParseInfo_out_char s records now pt ci0 ci1 j v
    hra hlook hcp hj hnib hnibw hob hobv hnobw,
   fun _ => rfl, fun _ => rfl⟩

/-- The C6 witness stream: one already-joined client (join 1000). -/
def c6WStream : StreamInfo :=
  { streamInit "live".data with
    clients := [(Val.vStr "w".data,
      ⟨Val.vStr "w".data, some 1000, none, Val.vStr []⟩)] }

/-- The C6 witness record: 3 output bytes for that client. -/
def c6WRec : Record :=
  [(kRemoteAddr, Val.vStr "w".data), (kOutBytes, Val.vStr "3".data)]

/-- Witness for C6 (amended), at an input where the Python 2 floor
division is inexact: 3 bytes over 2 elapsed seconds gives
`out_bw = (3 // 2) * 1000 / 1024.0 = 1000 / 1024 = 125 / 128`
(0.9765625), not the `3 / 2 * 1000 / 1024 = 1.46484375` that exact
rational division of the byte total would produce. -/
theorem c6_out_bw_witness :
    recHas c6WRec kRemoteAddr = true ∧
    (streamParseInfo c6WStream c6WRec 1002 (fun _ => 0)).1.out_bw = 125 / 128 ∧
    (streamParseInfo c6WStream c6WRec 1002 (fun _ => 0)).1.out_bytes = 3 ∧
    ((125 : Rat) / 128 ≠ (3 : Rat) / 2 * 1000 / 1024) := by
  have h := c6_out_bw c6WStream c6WRec 1002 (fun _ => 0)
    ⟨Val.vStr "w".data, some 1000, none, Val.vStr []⟩
    ⟨Val.vStr "w".data, some 1000, none, Val.vStr []⟩ 1000 3
    (by decide) (by decide) (by decide) (by decide) (by decide) (by decide)
    (by decide) (by decide) (by decide)
  refine ⟨by decide, ?_, ?_, by norm_num⟩
  · rw [h.1.2.2, if_pos (by decide),
        show ((c6WStream.out_bytes + 3).fdiv ((1002 : Int) - 1000) * 1000 : Int) = 1000
          from by decide]
    norm_num
  · rw [h.1.2.1]
    norm_num [c6WStream, streamInit]
